import Mathlib

/-!
Verification of the book2anki word-extraction pipeline.

The Python sources pdf2words.py and create_anki.py are embedded
shallowly: Python strings are `String` (lists of characters), Python
sets of strings are lists observed only through membership and through
the sorted deduplicated form the save functions write (set-sameness is
stated via `List.toFinset`), Python dicts are association lists kept in
insertion order, file contents are `Option String` (`none` models a
missing file), and the external services (the OCR engine, the NLTK word
corpus, the translation API, md5) are parameters of the definitions that
call them.  Text is assumed ASCII throughout, matching the pipeline,
which filters words down to ASCII letters before any case-sensitive
operation.
-/

/-- ASCII decimal digit, modelling Python str.isdigit on ASCII text. -/
def pyIsDigit (c : Char) : Bool := decide ('0' ≤ c) && decide (c ≤ '9')

/-- ASCII lowercase letter. -/
def isLowerAlpha (c : Char) : Bool := decide ('a' ≤ c) && decide (c ≤ 'z')

/-- ASCII uppercase letter. -/
def isUpperAlpha (c : Char) : Bool := decide ('A' ≤ c) && decide (c ≤ 'Z')

/-- ASCII letter: one character of the regex class [a-zA-Z]. -/
def isAsciiLetter (c : Char) : Bool := isLowerAlpha c || isUpperAlpha c

/-- Characters Python str.strip, str.split and the regex class \s treat
as whitespace (ASCII range). -/
def pyIsSpace (c : Char) : Bool :=
  c == ' ' || c == '\t' || c == '\n' || c == '\r' || c == '\x0b' || c == '\x0c'

/-- Word characters of the regex class \w (ASCII range). -/
def isWordChar (c : Char) : Bool := isAsciiLetter c || pyIsDigit c || c == '_'

/-- Python str.strip: drop leading and trailing whitespace. -/
def pyStrip (s : String) : String :=
  ⟨((s.data.dropWhile pyIsSpace).reverse.dropWhile pyIsSpace).reverse⟩

/-- Dropping a prefix never lengthens a list. -/
theorem dropWhile_length_le (p : Char → Bool) (l : List Char) :
    (l.dropWhile p).length ≤ l.length := by
  induction l with
  | nil => simp [List.dropWhile]
  | cons c rest ih =>
    by_cases h : p c
    · simp only [List.dropWhile, h]
      exact Nat.le_succ_of_le ih
    · simp [List.dropWhile, h]

/-- Python text-mode line iteration: split file content at line
terminators (LF, CRLF or CR), terminators dropped, a final unterminated
line kept, nothing produced after a final terminator.  The flag records
whether the previous character was a CR, whose line break was already
emitted, so that a following LF is consumed silently. -/
def splitLinesAux : List Char → List Char → Bool → List String
  | [], acc, _ => if acc.isEmpty then [] else [⟨acc⟩]
  | c :: rest, acc, prevCR =>
    if c == '\r' then ⟨acc⟩ :: splitLinesAux rest [] true
    else if c == '\n' then
      if prevCR then splitLinesAux rest [] false
      else ⟨acc⟩ :: splitLinesAux rest [] false
    else splitLinesAux rest (acc ++ [c]) false

/-- The lines of a file's content, as Python iterates them. -/
def splitLines (s : String) : List String := splitLinesAux s.data [] false

/-- Collapse each maximal whitespace run to one space, modelling the
substitution of the regex \s+ by a single space in clean_sentence.  The
flag records whether the previous character was whitespace (already
replaced by the run's single space). -/
def collapseSpacesAux : List Char → Bool → List Char
  | [], _ => []
  | c :: rest, prevSpace =>
    if pyIsSpace c then
      if prevSpace then collapseSpacesAux rest true
      else ' ' :: collapseSpacesAux rest true
    else c :: collapseSpacesAux rest false

/-- Collapse each maximal whitespace run to one space. -/
def collapseSpaces (cs : List Char) : List Char := collapseSpacesAux cs false

/-- clean_sentence from pdf2words.py: collapse whitespace, replace
newlines and carriage returns by spaces, then strip. -/
def clean_sentence (s : String) : String :=
  pyStrip ⟨(collapseSpaces s.data).map (fun c => if c == '\n' || c == '\r' then ' ' else c)⟩

/-- clean_word from pdf2words.py: delete every character that is neither
a word character nor whitespace. -/
def clean_word (s : String) : String :=
  ⟨s.data.filter (fun c => isWordChar c || pyIsSpace c)⟩

/-- The fixed spelled-out-number set of is_valid_word. -/
def number_words : List String :=
  ["zero", "one", "two", "three", "four", "five", "six", "seven", "eight",
   "nine", "ten", "eleven", "twelve", "thirteen", "fourteen", "fifteen",
   "sixteen", "seventeen", "eighteen", "nineteen", "twenty"]

/-- The regex search for a character followed by three repetitions of
itself: some four consecutive equal characters occur. -/
def hasRun4 : List Char → Bool
  | a :: b :: c :: d :: rest =>
    (a == b && a == c && a == d) || hasRun4 (b :: c :: d :: rest)
  | _ => false

/-- The anchored regex match of one-or-more ASCII letters, modelled as a
full-string test (the tokens the pipeline cleans are split on
whitespace first, so none carries the trailing newline a dollar anchor
would also accept). -/
def reMatchAlpha (cs : List Char) : Bool := !cs.isEmpty && cs.all isAsciiLetter

/-- Helper for Python str.istitle: walk the characters tracking whether
the previous character was cased and whether any cased character was
seen. -/
def istitleAux : List Char → Bool → Bool → Bool
  | [], _, seenCased => seenCased
  | c :: rest, prevCased, seenCased =>
    if isUpperAlpha c then
      if prevCased then false else istitleAux rest true true
    else if isLowerAlpha c then
      if prevCased then istitleAux rest true true else false
    else istitleAux rest false seenCased

/-- Python str.istitle on ASCII text: uppercase letters only start cased
runs, lowercase letters only continue them, and at least one cased
character occurs. -/
def pyIstitle (s : String) : Bool := istitleAux s.data false false

/-- is_valid_word from pdf2words.py.  The NLTK corpus english_words is
the parameter; none models a raised exception (indexing word[0] or
word[-1] out of range), some b the truthiness of the value the Python
and-chain returns. -/
def is_valid_word (english_words : List String) (word : String) : Option Bool :=
  if word.length < 4 then some false
  else
    match word.data.head?, word.data.getLast? with
    | some c0, some cl =>
      if pyIsDigit c0 then some false
      else if pyIsDigit cl then some false
      else if word ∈ number_words then some false
      else if hasRun4 word.data then some false
      else if !reMatchAlpha word.data then some false
      else if pyIstitle word then some false
      else some (decide (word ∈ english_words))
    | _, _ => none

/-- Python dict assignment d[k] = v: replace the value in place when the
key is present (its position kept), append the pair otherwise. -/
def dictInsert {V : Type} (m : List (String × V)) (k : String) (v : V) :
    List (String × V) :=
  if m.any (fun p => p.1 == k) then
    m.map (fun p => if p.1 == k then (k, v) else p)
  else m ++ [(k, v)]

/-- Helper for Python str.split with no separator. -/
def pySplitAux : List Char → List Char → List String
  | [], acc => if acc.isEmpty then [] else [⟨acc⟩]
  | c :: rest, acc =>
    if pyIsSpace c then
      if acc.isEmpty then pySplitAux rest [] else ⟨acc⟩ :: pySplitAux rest []
    else pySplitAux rest (acc ++ [c])

/-- Python str.split() with no separator: split on whitespace runs,
producing no empty tokens. -/
def pySplit (s : String) : List String := pySplitAux s.data []

/-- Helper for the regex split on sentence terminators. -/
def splitSentencesAux : List Char → List Char → List String
  | [], acc => [⟨acc⟩]
  | c :: rest, acc =>
    if c == '.' || c == '!' || c == '?' then ⟨acc⟩ :: splitSentencesAux rest []
    else splitSentencesAux rest (acc ++ [c])

/-- The regex split of the text on the class [.!?], empty pieces kept. -/
def splitSentences (s : String) : List String := splitSentencesAux s.data []

/-- Python str.lower on ASCII text. -/
def pyLower (s : String) : String := ⟨s.data.map Char.toLower⟩

/-- The inner loop of extract_unique_words over one cleaned sentence:
clean each token, and for a valid word whose cleaned (uncased) form is
not yet a key, assign under the lowercased key. -/
def extractFromSentence (english_words : List String)
    (uw : List (String × String)) (cleaned : String) : List (String × String) :=
  (pySplit cleaned).foldl
    (fun uw w =>
      let wc := clean_word w
      if is_valid_word english_words wc == some true then
        if uw.any (fun p => p.1 == wc) then uw
        else dictInsert uw (pyLower wc) cleaned
      else uw)
    uw

/-- extract_unique_words from pdf2words.py: the mapping from word to the
sentence kept for it (the dict value holds just the sentence). -/
def extract_unique_words (english_words : List String) (text : String) :
    List (String × String) :=
  (splitSentences text).foldl
    (fun uw s => extractFromSentence english_words uw (clean_sentence s)) []

/-! ## Facts about the validity filter -/

/-- An uppercase ASCII letter is not a lowercase one. -/
theorem upper_not_lower (c : Char) (h : isUpperAlpha c = true) :
    isLowerAlpha c = false := by
  by_contra hc
  rw [Bool.not_eq_false] at hc
  simp only [isUpperAlpha, Bool.and_eq_true, decide_eq_true_eq] at h
  simp only [isLowerAlpha, Bool.and_eq_true, decide_eq_true_eq] at hc
  have : ('a' : Char) ≤ 'Z' := le_trans hc.1 h.2
  exact absurd this (by decide)

/-- An ASCII letter is lowercase or uppercase. -/
theorem letter_cases (c : Char) (h : isAsciiLetter c = true) :
    isLowerAlpha c = true ∨ isUpperAlpha c = true := by
  simp only [isAsciiLetter, Bool.or_eq_true] at h
  exact h


/-- A list with four consecutive equal characters stays so under cons. -/
theorem hasRun4_cons (x : Char) (cs : List Char) (h : hasRun4 cs = true) :
    hasRun4 (x :: cs) = true := by
  cases cs with
  | nil => simp [hasRun4] at h
  | cons b t => cases t with
    | nil => simp [hasRun4] at h
    | cons c t2 => cases t2 with
      | nil => simp [hasRun4] at h
      | cons d t3 => cases t3 with
        | nil => simp [hasRun4] at h
        | cons e t4 =>
          simp only [hasRun4, Bool.or_eq_true] at h ⊢
          exact Or.inr h

/-- The searched regex matches exactly when the characters contain a run
of four equal characters. -/
theorem hasRun4_iff (cs : List Char) :
    hasRun4 cs = true ↔ ∃ a l r, cs = l ++ a :: a :: a :: a :: r := by
  constructor
  · induction cs with
    | nil => intro h; simp [hasRun4] at h
    | cons x tail ih =>
      intro h
      cases tail with
      | nil => simp [hasRun4] at h
      | cons b t2 => cases t2 with
        | nil => simp [hasRun4] at h
        | cons c t3 => cases t3 with
          | nil => simp [hasRun4] at h
          | cons d rest =>
            simp only [hasRun4, Bool.or_eq_true, Bool.and_eq_true, beq_iff_eq] at h
            rcases h with ⟨⟨hb, hc⟩, hd⟩ | h2
            · exact ⟨x, [], rest, by simp [← hb, ← hc, ← hd]⟩
            · obtain ⟨a, l, r, ha⟩ := ih h2
              exact ⟨a, x :: l, r, by simp [ha]⟩
  · rintro ⟨a, l, r, rfl⟩
    induction l with
    | nil => simp [hasRun4]
    | cons x l ih => exact hasRun4_cons x _ ih

/-- On a string of cased characters with a cased character already seen,
the title-walk accepts exactly the all-lowercase strings. -/
theorem istitleAux_lower (cs : List Char) (h : ∀ c ∈ cs, isAsciiLetter c = true) :
    istitleAux cs true true = cs.all isLowerAlpha := by
  induction cs with
  | nil => rfl
  | cons c rest ih =>
    have hc := h c (List.mem_cons_self c rest)
    have hrest : ∀ d ∈ rest, isAsciiLetter d = true :=
      fun d hd => h d (List.mem_cons_of_mem c hd)
    rcases letter_cases c hc with hl | hu
    · have hu2 : isUpperAlpha c = false := by
        by_contra hx
        rw [Bool.not_eq_false] at hx
        have := upper_not_lower c hx
        rw [hl] at this
        exact Bool.true_eq_false.mp this
      simp only [istitleAux, hu2, Bool.false_eq_true, if_false, hl, if_true,
        List.all_cons, ih hrest, Bool.true_and]
    · have hl2 : isLowerAlpha c = false := upper_not_lower c hu
      simp only [istitleAux, hu, if_true, List.all_cons, hl2,
        Bool.false_and, Bool.false_eq_true]

/-- On a nonempty all-letter string, Python istitle holds exactly when
the first letter is uppercase and the rest are lowercase. -/
theorem istitle_spec (cs : List Char) (hne : cs ≠ [])
    (h : ∀ c ∈ cs, isAsciiLetter c = true) :
    istitleAux cs false false = true ↔
      ∃ c rest, cs = c :: rest ∧ isUpperAlpha c = true ∧
        ∀ d ∈ rest, isLowerAlpha d = true := by
  match cs, hne with
  | c :: rest, _ =>
    have hc := h c (List.mem_cons_self c rest)
    have hrest : ∀ d ∈ rest, isAsciiLetter d = true :=
      fun d hd => h d (List.mem_cons_of_mem c hd)
    rcases letter_cases c hc with hl | hu
    · have hu2 : isUpperAlpha c = false := by
        by_contra hx
        rw [Bool.not_eq_false] at hx
        have := upper_not_lower c hx
        rw [hl] at this
        exact Bool.true_eq_false.mp this
      simp only [istitleAux, hu2, Bool.false_eq_true, if_false, hl, if_true]
      constructor
      · intro hfalse
        exact absurd hfalse (by simp)
      · rintro ⟨c2, rest2, heq, hup, _⟩
        rw [List.cons.injEq] at heq
        rw [heq.1] at hu2
        rw [hup] at hu2
        exact absurd hu2 (by simp)
    · have hl2 : isLowerAlpha c = false := upper_not_lower c hu
      simp only [istitleAux, hu, if_true, Bool.false_eq_true, if_false,
        istitleAux_lower rest hrest]
      constructor
      · intro hall
        refine ⟨c, rest, rfl, hu, ?_⟩
        intro d hd
        exact List.all_eq_true.mp hall d hd
      · rintro ⟨c2, rest2, heq, _, hlow⟩
        rw [List.cons.injEq] at heq
        rw [List.all_eq_true]
        intro d hd
        exact hlow d (heq.2 ▸ hd)

/-! ## The validity filter: claims C4 and C10 -/

/-- is_valid_word never models a raised exception: the length guard is
evaluated first and short-circuits the chain before word[0] and word[-1]
are indexed. -/
theorem valid_isSome (english_words : List String) (w : String) :
    (is_valid_word english_words w).isSome = true := by
  unfold is_valid_word
  by_cases hlen : w.length < 4
  · rw [if_pos hlen]; rfl
  · rw [if_neg hlen]
    have hne : w.data ≠ [] := by
      intro hd
      apply hlen
      have h0 : w.length = 0 := by
        show w.data.length = 0
        rw [hd]
        rfl
      omega
    split
    · split_ifs <;> rfl
    · rename_i h1 h2
      have : False := by
        obtain ⟨c0, hc0⟩ : ∃ c, w.data.head? = some c := by
          cases hd : w.data with
          | nil => exact absurd hd hne
          | cons a t => exact ⟨a, rfl⟩
        obtain ⟨cl, hcl⟩ : ∃ c, w.data.getLast? = some c :=
          ⟨w.data.getLast hne, List.getLast?_eq_getLast w.data hne⟩
        exact h2 c0 cl hc0 hcl
      exact this.elim

example (l : List Char) (h : l ≠ []) : ∃ c, l.head? = some c := by
  cases l with
  | nil => exact absurd rfl h
  | cons a t => exact ⟨a, rfl⟩

example (l : List Char) (h : l ≠ []) : ∃ c, l.getLast? = some c := by
  exact ⟨l.getLast h, List.getLast?_eq_getLast l h⟩



/-- C4: the validity filter accepts a cleaned token exactly when all of
the spec's conjuncts hold: length at least 4, first and last characters
not digits, not a spelled-out number zero..twenty, no run of one
character repeated four or more times, only ASCII letters, not
title-cased, and present in the reference dictionary. -/
theorem claim_C4_validity_filter (english_words : List String) (w : String) :
    is_valid_word english_words w = some true ↔
      (4 ≤ w.length ∧
       (∀ c, w.data.head? = some c → pyIsDigit c = false) ∧
       (∀ c, w.data.getLast? = some c → pyIsDigit c = false) ∧
       w ∉ number_words ∧
       ¬ (∃ a l r, w.data = l ++ a :: a :: a :: a :: r) ∧
       (∀ c ∈ w.data, isAsciiLetter c = true) ∧
       ¬ (∃ c rest, w.data = c :: rest ∧ isUpperAlpha c = true ∧
            ∀ d ∈ rest, isLowerAlpha d = true) ∧
       w ∈ english_words) := by
  unfold is_valid_word
  by_cases hlen : w.length < 4
  · rw [if_pos hlen]
    constructor
    · intro h
      exact absurd h (by simp)
    · rintro ⟨h4, -⟩
      exact absurd hlen (by omega)
  · rw [if_neg hlen]
    have hne : w.data ≠ [] := by
      intro hd
      apply hlen
      have h0 : w.length = 0 := by
        show w.data.length = 0
        rw [hd]
        rfl
      omega
    split
    · rename_i c0 cl hc0 hcl
      split_ifs with hd0 hdl hnum hrun halpha htitle
      · constructor
        · intro h; exact absurd h (by simp)
        · rintro ⟨-, hdig, -⟩
          rw [hdig c0 hc0] at hd0
          exact absurd hd0 (by simp)
      · constructor
        · intro h; exact absurd h (by simp)
        · rintro ⟨-, -, hdig, -⟩
          rw [hdig cl hcl] at hdl
          exact absurd hdl (by simp)
      · constructor
        · intro h; exact absurd h (by simp)
        · rintro ⟨-, -, -, hnum2, -⟩
          exact absurd hnum hnum2
      · constructor
        · intro h; exact absurd h (by simp)
        · rintro ⟨-, -, -, -, hrun2, -⟩
          exact absurd ((hasRun4_iff w.data).mp hrun) hrun2
      · constructor
        · intro h; exact absurd h (by simp)
        · rintro ⟨-, -, -, -, -, halpha2, -⟩
          have hre : reMatchAlpha w.data = true := by
            simp [reMatchAlpha, hne, List.all_eq_true]
            exact halpha2
          rw [hre] at halpha
          exact absurd halpha (by simp)
      · constructor
        · intro h; exact absurd h (by simp)
        · rintro ⟨-, -, -, -, -, halpha2, htitle2, -⟩
          refine absurd ?_ htitle2
          refine (istitle_spec w.data hne halpha2).mp ?_
          exact htitle
      · -- all guards passed
        have halpha3 : reMatchAlpha w.data = true := by
          cases hx : reMatchAlpha w.data with
          | true => rfl
          | false => rw [hx] at halpha; exact absurd rfl halpha
        have hletters : ∀ c ∈ w.data, isAsciiLetter c = true := by
          have := halpha3
          simp only [reMatchAlpha, Bool.and_eq_true, List.all_eq_true] at this
          exact this.2
        constructor
        · intro h
          have hmem : w ∈ english_words := by
            rw [Option.some_inj] at h
            exact of_decide_eq_true h
          refine ⟨by omega, ?_, ?_, hnum, ?_, hletters, ?_, hmem⟩
          · intro c hc
            rw [hc0, Option.some_inj] at hc
            subst hc
            cases hx : pyIsDigit c0 with
            | true => exact absurd hx hd0
            | false => rfl
          · intro c hc
            rw [hcl, Option.some_inj] at hc
            subst hc
            cases hx : pyIsDigit cl with
            | true => exact absurd hx hdl
            | false => rfl
          · rintro ⟨a, l, r, hdec⟩
            exact absurd ((hasRun4_iff w.data).mpr ⟨a, l, r, hdec⟩) hrun
          · intro spec
            exact absurd ((istitle_spec w.data hne hletters).mpr spec) htitle
        · rintro ⟨-, -, -, -, -, -, -, hmem⟩
          rw [Option.some_inj]
          exact decide_eq_true hmem
    · rename_i h2
      exfalso
      obtain ⟨c0, hc0⟩ : ∃ c, w.data.head? = some c := by
        cases hd : w.data with
        | nil => exact absurd hd hne
        | cons a t => exact ⟨a, rfl⟩
      obtain ⟨cl, hcl⟩ : ∃ c, w.data.getLast? = some c :=
        ⟨w.data.getLast hne, List.getLast?_eq_getLast w.data hne⟩
      exact h2 c0 cl hc0 hcl

/-- C10: is_valid_word is total on all strings: it returns a boolean and
never the exception value none, including on the empty string clean_word
produces when it strips every character of a token; when the length
conjunct fails it short-circuits to False before any indexing. -/
theorem claim_C10_total (english_words : List String) (t w : String) :
    (is_valid_word english_words (clean_word t)).isSome = true ∧
    (is_valid_word english_words w).isSome = true ∧
    (w.length < 4 → is_valid_word english_words w = some false) :=
  ⟨valid_isSome english_words (clean_word t), valid_isSome english_words w,
   fun h => by unfold is_valid_word; rw [if_pos h]⟩

/-! ## Word extraction: claim C3 -/

/-- C3: evaluating extract_unique_words at a failing input.  The word
abcd occurs (lowercased) in both sentences; the spec says the first
containing sentence is kept, yet the returned mapping holds the second
sentence: the membership guard checks the uncased cleaned token ABCD
against the keys while the assignment lowercases it, so the later
occurrence overwrites the earlier sentence. -/
theorem claim_C3_first_occurrence_overwritten :
    extract_unique_words ["abcd", "ABCD"] "abcd one. ABCD two." =
      [("abcd", "ABCD two")] ∧
    extract_unique_words ["abcd", "ABCD"] "abcd one." = [("abcd", "abcd one")] := by
  constructor
  · decide
  · decide

/-! ## The classification store: files, CSV, and round trips

Python sets of strings are modelled as lists observed only through
membership and through the sorted, deduplicated form the save functions
write; Python dicts as association lists in insertion order. -/

/-- A value of the unknown-words dict: translation and example sentence. -/
structure WordDetails where
  translation : String
  sentence : String
deriving DecidableEq

/-- Code-point lexicographic comparison of character lists, the order
Python sorted uses on strings. -/
def lexLe : List Char → List Char → Bool
  | [], _ => true
  | _ :: _, [] => false
  | a :: as, b :: bs =>
    if a.toNat < b.toNat then true
    else if b.toNat < a.toNat then false
    else lexLe as bs

/-- Python string comparison. -/
def strLe (a b : String) : Bool := lexLe a.data b.data

/-- Insertion into a sorted list of strings. -/
def insertSorted (x : String) : List String → List String
  | [] => [x]
  | y :: rest => if strLe x y then x :: y :: rest else y :: insertSorted x rest

/-- Python sorted on a list of strings. -/
def sortStrings (l : List String) : List String := l.foldr insertSorted []

/-- The characters of newline-terminated lines, one per list entry. -/
def joinLinesData : List String → List Char
  | [] => []
  | w :: ws => w.data ++ '\n' :: joinLinesData ws

/-- File content holding each list entry as one newline-terminated line. -/
def joinLines (ws : List String) : String := ⟨joinLinesData ws⟩

/-- load_known_words from pdf2words.py: a missing file is the empty set;
otherwise the set of stripped lines (deduplicated, as a Python set). -/
def load_known_words : Option String → List String
  | none => []
  | some content => ((splitLines content).map pyStrip).dedup

/-- save_known_words from pdf2words.py: the file holds the set's
distinct words, sorted, one per line. -/
def save_known_words (known : List String) : String :=
  joinLines (sortStrings known.dedup)

/-- load_otherbook_words from pdf2words.py: the union of the stripped
lines of every other document's .words sidecar file (the files' contents
are the parameter; the set is observed only through membership, so
duplicates in the list model are harmless). -/
def load_otherbook_words (files : List String) : List String :=
  files.foldl (fun acc content => acc ++ (splitLines content).map pyStrip) []

/-- CSV escaping of one field's characters: a double quote is doubled. -/
def escQ : List Char → List Char
  | [] => []
  | c :: rest => if c == '"' then '"' :: '"' :: escQ rest else c :: escQ rest

/-- A field as the csv writer with QUOTE_ALL emits it: quoted, quotes
doubled. -/
def serField (f : String) : List Char := '"' :: (escQ f.data ++ ['"'])

/-- A row's fields, comma-separated. -/
def serFields : List String → List Char
  | [] => []
  | [f] => serField f
  | f :: f2 :: fs => serField f ++ ',' :: serFields (f2 :: fs)

/-- Rows as the csv writer emits them, each terminated by CRLF. -/
def serRowsData : List (List String) → List Char
  | [] => []
  | r :: rs => serFields r ++ '\r' :: '\n' :: serRowsData rs

/-- The csv reader's state: outside quotes, inside a quoted field, or
just after a quote inside a quoted field (which doubles to a literal
quote or closes the field). -/
inductive CsvMode where
  | outQ
  | inQ
  | postQ
deriving DecidableEq

/-- The csv reader as a character walk.  Arguments: remaining input,
mode, whether the current row has seen any field data (a blank line
yields an empty row), whether the previous character was a CR whose row
break was already emitted, the current field's characters, the current
row's completed fields. -/
def csvRunAux : List Char → CsvMode → Bool → Bool → List Char → List String →
    List (List String)
  | [], .outQ, started, _, field, row =>
    if started then [row ++ [(⟨field⟩ : String)]] else []
  | [], .inQ, _, _, field, row => [row ++ [(⟨field⟩ : String)]]
  | [], .postQ, _, _, field, row => [row ++ [(⟨field⟩ : String)]]
  | c :: rest, .outQ, started, prevCR, field, row =>
    if c == ',' then csvRunAux rest .outQ true false [] (row ++ [(⟨field⟩ : String)])
    else if c == '\n' then
      if prevCR then csvRunAux rest .outQ false false [] []
      else (if started then row ++ [(⟨field⟩ : String)] else []) ::
        csvRunAux rest .outQ false false [] []
    else if c == '\r' then
      (if started then row ++ [(⟨field⟩ : String)] else []) ::
        csvRunAux rest .outQ false true [] []
    else if c == '"' then
      if field.isEmpty then csvRunAux rest .inQ true false [] row
      else csvRunAux rest .outQ true false (field ++ [c]) row
    else csvRunAux rest .outQ true false (field ++ [c]) row
  | c :: rest, .inQ, started, _, field, row =>
    if c == '"' then csvRunAux rest .postQ started false field row
    else csvRunAux rest .inQ started false (field ++ [c]) row
  | c :: rest, .postQ, started, _, field, row =>
    if c == '"' then csvRunAux rest .inQ started false (field ++ [c]) row
    else if c == ',' then csvRunAux rest .outQ true false [] (row ++ [(⟨field⟩ : String)])
    else if c == '\n' then
      (row ++ [(⟨field⟩ : String)]) :: csvRunAux rest .outQ false false [] []
    else if c == '\r' then
      (row ++ [(⟨field⟩ : String)]) :: csvRunAux rest .outQ false true [] []
    else csvRunAux rest .outQ true false (field ++ [c]) row

/-- The csv reader over a file's content. -/
def csvParse (content : String) : List (List String) :=
  csvRunAux content.data .outQ false false [] []

/-- The rows save_unknown_words writes: word, translation, sentence. -/
def unknownRows (unknown : List (String × WordDetails)) : List (List String) :=
  unknown.map (fun p => [p.1, p.2.translation, p.2.sentence])

/-- save_unknown_words from pdf2words.py: the pair of the CSV file's
content and the .words sidecar file's content (the dict's keys, sorted,
one per line). -/
def save_unknown_words (unknown : List (String × WordDetails)) : String × String :=
  (⟨serRowsData (unknownRows unknown)⟩,
   joinLines (sortStrings (unknown.map Prod.fst)))

/-- load_unknown_words from pdf2words.py: a missing file is the empty
dict; otherwise each CSV row with at least three fields assigns its
first three fields as word, translation and sentence. -/
def load_unknown_words : Option String → List (String × WordDetails)
  | none => []
  | some content =>
    (csvParse content).foldl
      (fun m row =>
        if 3 ≤ row.length then
          dictInsert m (row.getD 0 "") ⟨row.getD 1 "", row.getD 2 ""⟩
        else m) []

/-! ## Round-trip lemmas for the store -/

/-- Inserting into a sorted list is a permutation of consing. -/
theorem insertSorted_perm (x : String) (l : List String) :
    List.Perm (insertSorted x l) (x :: l) := by
  induction l with
  | nil => exact List.Perm.refl [x]
  | cons y rest ih =>
    by_cases h : strLe x y = true
    · simp [insertSorted, h]
    · simp only [insertSorted, h, if_false]
      exact List.Perm.trans (List.Perm.cons y ih) (List.Perm.swap x y rest)

/-- Sorting permutes the list. -/
theorem sortStrings_perm (l : List String) : List.Perm (sortStrings l) l := by
  induction l with
  | nil => exact List.Perm.refl []
  | cons x rest ih =>
    exact List.Perm.trans (insertSorted_perm x (sortStrings rest)) (List.Perm.cons x ih)

/-- A map that fixes every element of a list is the identity on it. -/
theorem map_eq_self_of {α : Type} (l : List α) (f : α → α)
    (h : ∀ x ∈ l, f x = x) : l.map f = l := by
  induction l with
  | nil => rfl
  | cons x rest ih =>
    rw [List.map_cons, h x (List.mem_cons_self x rest),
      ih (fun y hy => h y (List.mem_cons_of_mem x hy))]

/-- Scanning a newline-free word up to its terminator emits exactly that
word as a line. -/
theorem splitLinesAux_word (cs acc rest : List Char)
    (h : ∀ c ∈ cs, c ≠ '\n' ∧ c ≠ '\r') :
    splitLinesAux (cs ++ '\n' :: rest) acc false =
      (⟨acc ++ cs⟩ : String) :: splitLinesAux rest [] false := by
  induction cs generalizing acc with
  | nil =>
    rw [List.append_nil]
    rfl
  | cons c cs ih =>
    have hc := h c (List.mem_cons_self c cs)
    have hcs : ∀ d ∈ cs, d ≠ '\n' ∧ d ≠ '\r' :=
      fun d hd => h d (List.mem_cons_of_mem c hd)
    show splitLinesAux (c :: (cs ++ '\n' :: rest)) acc false = _
    rw [splitLinesAux]
    rw [if_neg (by simp [hc.2]), if_neg (by simp [hc.1])]
    rw [ih (acc ++ [c]) hcs]
    rw [List.append_assoc, List.singleton_append]

/-- Reading back a file of newline-free lines yields those lines. -/
theorem splitLines_joinLines (ws : List String)
    (h : ∀ w ∈ ws, '\n' ∉ w.data ∧ '\r' ∉ w.data) :
    splitLines (joinLines ws) = ws := by
  induction ws with
  | nil => rfl
  | cons w ws ih =>
    have hw := h w (List.mem_cons_self w ws)
    have hws : ∀ v ∈ ws, '\n' ∉ v.data ∧ '\r' ∉ v.data :=
      fun v hv => h v (List.mem_cons_of_mem w hv)
    show splitLinesAux (w.data ++ '\n' :: joinLinesData ws) [] false = w :: ws
    rw [splitLinesAux_word w.data [] (joinLinesData ws)
      (fun c hc => ⟨fun he => hw.1 (he ▸ hc), fun he => hw.2 (he ▸ hc)⟩)]
    rw [List.nil_append]
    have : splitLinesAux (joinLinesData ws) [] false = splitLines (joinLines ws) := rfl
    rw [this, ih hws]

/-- Consuming an escaped field inside quotes accumulates exactly the
field's characters and stops at the closing quote. -/
theorem csvRunAux_escQ (f : List Char) (acc : List Char) (started : Bool)
    (row : List String) (rest : List Char) :
    csvRunAux (escQ f ++ '"' :: rest) CsvMode.inQ started false acc row =
      csvRunAux rest CsvMode.postQ started false (acc ++ f) row := by
  induction f generalizing acc with
  | nil =>
    rw [List.append_nil]
    rfl
  | cons c f ih =>
    by_cases hc : c = '"'
    · subst hc
      show csvRunAux ('"' :: '"' :: (escQ f ++ '"' :: rest)) CsvMode.inQ started false acc row = _
      have step : csvRunAux ('"' :: '"' :: (escQ f ++ '"' :: rest)) CsvMode.inQ started false acc row =
          csvRunAux (escQ f ++ '"' :: rest) CsvMode.inQ started false (acc ++ ['"']) row := rfl
      rw [step, ih (acc ++ ['"'])]
      rw [List.append_assoc, List.singleton_append]
    · rw [show escQ (c :: f) = c :: escQ f from by simp [escQ, hc]]
      show csvRunAux (c :: (escQ f ++ '"' :: rest)) CsvMode.inQ started false acc row = _
      rw [csvRunAux]
      rw [if_neg (by simp [hc])]
      rw [ih (acc ++ [c])]
      rw [List.append_assoc, List.singleton_append]

/-- Parsing a serialized row up to its CRLF terminator emits exactly the
row's fields and continues at the following content. -/
theorem csvRunAux_serFields (fs : List String) (hfs : fs ≠ [])
    (rest : List Char) (row : List String) (started : Bool) :
    csvRunAux (serFields fs ++ '\r' :: '\n' :: rest) CsvMode.outQ started false [] row =
      (row ++ fs) :: csvRunAux rest CsvMode.outQ false false [] [] := by
  induction fs generalizing row started with
  | nil => exact absurd rfl hfs
  | cons f fs ih =>
    cases fs with
    | nil =>
      show csvRunAux (('"' :: (escQ f.data ++ ['"'])) ++ '\r' :: '\n' :: rest)
          CsvMode.outQ started false [] row = _
      rw [List.cons_append, List.append_assoc, List.singleton_append]
      have step : csvRunAux ('"' :: (escQ f.data ++ '"' :: '\r' :: '\n' :: rest))
          CsvMode.outQ started false [] row =
          csvRunAux (escQ f.data ++ '"' :: '\r' :: '\n' :: rest)
            CsvMode.inQ true false [] row := rfl
      rw [step, csvRunAux_escQ f.data [] true row ('\r' :: '\n' :: rest)]
      rw [List.nil_append]
      rfl
    | cons f2 fs2 =>
      show csvRunAux ((serField f ++ ',' :: serFields (f2 :: fs2)) ++ '\r' :: '\n' :: rest)
          CsvMode.outQ started false [] row = _
      rw [List.append_assoc, List.cons_append]
      show csvRunAux (('"' :: (escQ f.data ++ ['"'])) ++
          ',' :: (serFields (f2 :: fs2) ++ '\r' :: '\n' :: rest))
          CsvMode.outQ started false [] row = _
      rw [List.cons_append, List.append_assoc, List.singleton_append]
      have step : csvRunAux ('"' :: (escQ f.data ++ '"' :: ',' ::
          (serFields (f2 :: fs2) ++ '\r' :: '\n' :: rest)))
          CsvMode.outQ started false [] row =
          csvRunAux (escQ f.data ++ '"' :: ',' ::
            (serFields (f2 :: fs2) ++ '\r' :: '\n' :: rest))
            CsvMode.inQ true false [] row := rfl
      rw [step, csvRunAux_escQ f.data [] true row
        (',' :: (serFields (f2 :: fs2) ++ '\r' :: '\n' :: rest))]
      rw [List.nil_append]
      have step2 : csvRunAux (',' :: (serFields (f2 :: fs2) ++ '\r' :: '\n' :: rest))
          CsvMode.postQ true false f.data row =
          csvRunAux (serFields (f2 :: fs2) ++ '\r' :: '\n' :: rest)
            CsvMode.outQ true false [] (row ++ [(⟨f.data⟩ : String)]) := rfl
      rw [step2, ih (List.cons_ne_nil f2 fs2) (row ++ [(⟨f.data⟩ : String)]) true]
      rw [List.append_assoc, List.singleton_append]

/-- Parsing the serialized rows of nonempty rows recovers them. -/
theorem csvRunAux_serRows (rows : List (List String))
    (h : ∀ r ∈ rows, r ≠ []) :
    csvRunAux (serRowsData rows) CsvMode.outQ false false [] [] = rows := by
  induction rows with
  | nil => rfl
  | cons r rs ih =>
    show csvRunAux (serFields r ++ '\r' :: '\n' :: serRowsData rs)
        CsvMode.outQ false false [] [] = r :: rs
    rw [csvRunAux_serFields r (h r (List.mem_cons_self r rs)) (serRowsData rs) [] false]
    rw [List.nil_append, ih (fun q hq => h q (List.mem_cons_of_mem r hq))]

/-- Folding the loader's row step over rows whose keys are fresh and
distinct appends the corresponding entries. -/
theorem load_rows_append (u : List (String × WordDetails)) :
    ∀ m : List (String × WordDetails), (u.map Prod.fst).Nodup →
    (∀ p ∈ u, ∀ q ∈ m, q.1 ≠ p.1) →
    (unknownRows u).foldl
      (fun m row =>
        if 3 ≤ row.length then
          dictInsert m (row.getD 0 "") ⟨row.getD 1 "", row.getD 2 ""⟩
        else m) m = m ++ u := by
  induction u with
  | nil => intro m _ _; simp [unknownRows]
  | cons p u ih =>
    intro m hnd hfresh
    obtain ⟨w, d⟩ := p
    have hrow : unknownRows ((w, d) :: u) =
        [w, d.translation, d.sentence] :: unknownRows u := rfl
    rw [hrow, List.foldl_cons]
    have hstep : (if 3 ≤ ([w, d.translation, d.sentence] : List String).length then
        dictInsert m (([w, d.translation, d.sentence] : List String).getD 0 "")
          ⟨([w, d.translation, d.sentence] : List String).getD 1 "",
           ([w, d.translation, d.sentence] : List String).getD 2 ""⟩
        else m) = dictInsert m w ⟨d.translation, d.sentence⟩ := by
      rw [if_pos (by simp)]
      rfl
    rw [hstep]
    have hany : m.any (fun q => q.1 == w) = false := by
      rw [List.any_eq_false]
      intro q hq
      simp only [beq_iff_eq]
      exact hfresh (w, d) (List.mem_cons_self (w, d) u) q hq
    have hins : dictInsert m w ⟨d.translation, d.sentence⟩ = m ++ [(w, d)] := by
      rw [dictInsert, if_neg (by rw [hany]; simp)]
    rw [hins]
    have hnd2 : (u.map Prod.fst).Nodup := (List.nodup_cons.mp hnd).2
    have hwfresh : w ∉ u.map Prod.fst := (List.nodup_cons.mp hnd).1
    rw [ih (m ++ [(w, d)]) hnd2 ?_]
    · rw [List.append_assoc]
      rfl
    · intro q hq r hr
      rcases List.mem_append.mp hr with hm | hw
      · exact hfresh q (List.mem_cons_of_mem (w, d) hq) r hm
      · rw [List.mem_singleton.mp hw]
        intro he
        apply hwfresh
        have : (w, d).1 ∈ u.map Prod.fst := he ▸ List.mem_map_of_mem Prod.fst hq
        exact this

/-- C6: round trips of the two stores.  Reloading the saved known-words
file yields the same set provided each word is strip-invariant and free
of line terminators (the counterexample claim_C6_cx shows the raw claim
fails without that proviso); reloading the saved unknown-words CSV
yields the same mapping for every mapping (association list with
distinct keys, as a Python dict guarantees). -/
theorem claim_C6_roundtrip :
    (∀ s : List String,
      (∀ w ∈ s, pyStrip w = w ∧ '\n' ∉ w.data ∧ '\r' ∉ w.data) →
      (load_known_words (some (save_known_words s))).toFinset = s.toFinset) ∧
    (∀ u : List (String × WordDetails),
      (u.map Prod.fst).Nodup →
      load_unknown_words (some (save_unknown_words u).1) = u) := by
  constructor
  · intro s hwf
    have hperm : List.Perm (sortStrings s.dedup) s.dedup := sortStrings_perm _
    have hmem : ∀ w ∈ sortStrings s.dedup, w ∈ s := fun w hw =>
      List.mem_dedup.mp (hperm.mem_iff.mp hw)
    show ((splitLines (joinLines (sortStrings s.dedup))).map pyStrip).dedup.toFinset
        = s.toFinset
    rw [splitLines_joinLines (sortStrings s.dedup)
      (fun w hw => ⟨(hwf w (hmem w hw)).2.1, (hwf w (hmem w hw)).2.2⟩)]
    rw [map_eq_self_of (sortStrings s.dedup) pyStrip
      (fun w hw => (hwf w (hmem w hw)).1)]
    rw [List.dedup_eq_self.mpr (hperm.nodup_iff.mpr s.nodup_dedup)]
    have hdd : s.dedup.toFinset = s.toFinset := by
      ext w
      simp [List.mem_toFinset, List.mem_dedup]
    rw [List.toFinset_eq_of_perm _ _ hperm, hdd]
  · intro u hnd
    show (csvParse ⟨serRowsData (unknownRows u)⟩).foldl _ [] = u
    have hdata : (⟨serRowsData (unknownRows u)⟩ : String).data =
        serRowsData (unknownRows u) := rfl
    show (csvRunAux (serRowsData (unknownRows u)) CsvMode.outQ false false [] []).foldl _ [] = u
    rw [csvRunAux_serRows (unknownRows u) ?_]
    · exact load_rows_append u [] hnd (by intro p _ q hq; exact absurd hq (List.not_mem_nil q))
    · intro r hr
      obtain ⟨p, _, hp⟩ := List.mem_map.mp hr
      rw [← hp]
      exact List.cons_ne_nil p.1 [p.2.translation, p.2.sentence]

/-- C6 counterexample: for the set containing the single word with a
trailing blank, reloading the saved known-words file strips the blank,
so the reloaded set differs from the saved one: the unrestricted claim
is false. -/
theorem claim_C6_cx :
    (load_known_words (some (save_known_words ["abcd "]))).toFinset ≠
      (["abcd "] : List String).toFinset := by decide

/-- C6 witness: both round trips at concrete stores. -/
theorem claim_C6_witness :
    (load_known_words (some (save_known_words ["abcd"]))).toFinset =
      (["abcd"] : List String).toFinset ∧
    load_unknown_words (some (save_unknown_words [("abcd", ⟨"kot", "a b"⟩)]).1) =
      [("abcd", ⟨"kot", "a b"⟩)] :=
  ⟨claim_C6_roundtrip.1 ["abcd"] (by decide),
   claim_C6_roundtrip.2 [("abcd", ⟨"kot", "a b"⟩)] (by decide)⟩

/-! ## The interactive classifier: claims C1 and C5 -/

/-- Python set.add: append the element when absent. -/
def setAdd (s : List String) (w : String) : List String :=
  if w ∈ s then s else s ++ [w]

/-- The files classify_words touches: the global known-words file, the
current document's CSV and .words sidecar, and the contents of the other
documents' .words files. -/
structure FileState where
  knownFile : Option String
  csvFile : Option String
  sidecarFile : Option String
  otherWordsFiles : List String
deriving DecidableEq

/-- One step of user input during the review loop: the two directional
keys, any other (ignored) key, or the interruption signal. -/
inductive UserKey where
  | left
  | right
  | other
  | interrupt
deriving DecidableEq

/-- The review loop of classify_words.  One key is consumed per step;
left marks the current word known, right marks it unknown with an empty
translation, any other key leaves the inner wait-loop running, and
interrupt ends the session keeping the decisions made so far.  An
exhausted key list also ends the session (the loop cannot make further
progress without input). -/
def classifyLoop : List (String × String) → List UserKey → List String →
    List (String × WordDetails) →
    List String × List (String × WordDetails)
  | _, [], known, unknown => (known, unknown)
  | [], _, known, unknown => (known, unknown)
  | (w, s) :: ws, k :: ks, known, unknown =>
    match k with
    | .left => classifyLoop ws ks (setAdd known w) unknown
    | .right => classifyLoop ws ks known (dictInsert unknown w ⟨"", s⟩)
    | .other => classifyLoop ((w, s) :: ws) ks known unknown
    | .interrupt => (known, unknown)

/-- The filter classify_words applies before presenting: drop every word
already known, already unknown, or present in another document's .words
file. -/
def newWordlist (known : List String) (unknown : List (String × WordDetails))
    (other : List String) (wordlist : List (String × String)) :
    List (String × String) :=
  wordlist.filter (fun p =>
    !(decide (p.1 ∈ known) || unknown.any (fun q => q.1 == p.1) ||
      decide (p.1 ∈ other)))

/-- classify_words from pdf2words.py: load the three collections, filter
the wordlist, run the review loop on the user's keys, and - by the
finally clause - save the known set and the unknown store (CSV and
sidecar) whatever way the loop ended, returning the unknown store. -/
def classify_words (wordlist : List (String × String)) (keys : List UserKey)
    (fs : FileState) : FileState × List (String × WordDetails) :=
  let known := load_known_words fs.knownFile
  let unknown := load_unknown_words fs.csvFile
  let other := load_otherbook_words fs.otherWordsFiles
  let newlist := newWordlist known unknown other wordlist
  let result := classifyLoop newlist keys known unknown
  ({ fs with
      knownFile := some (save_known_words result.1),
      csvFile := some (save_unknown_words result.2).1,
      sidecarFile := some (save_unknown_words result.2).2 },
   result.2)

/-- The words the user marks known before the session ends: the decision
trace of the review loop restricted to left presses. -/
def leftDecided : List (String × String) → List UserKey → List String
  | _, [] => []
  | [], _ => []
  | (w, s) :: ws, k :: ks =>
    match k with
    | .left => w :: leftDecided ws ks
    | .right => leftDecided ws ks
    | .other => leftDecided ((w, s) :: ws) ks
    | .interrupt => []

/-- The words (with sentences) the user marks unknown before the session
ends. -/
def rightDecided : List (String × String) → List UserKey →
    List (String × String)
  | _, [] => []
  | [], _ => []
  | (w, s) :: ws, k :: ks =>
    match k with
    | .left => rightDecided ws ks
    | .right => (w, s) :: rightDecided ws ks
    | .other => rightDecided ((w, s) :: ws) ks
    | .interrupt => []

/-- The known set classify_words holds when its loop ends: the loaded
set extended by every word decided left up to that point. -/
def classifyFinalKnown (fs : FileState) (wordlist : List (String × String))
    (keys : List UserKey) : List String :=
  (leftDecided
      (newWordlist (load_known_words fs.knownFile)
        (load_unknown_words fs.csvFile)
        (load_otherbook_words fs.otherWordsFiles) wordlist) keys).foldl
    setAdd (load_known_words fs.knownFile)

/-- The unknown store classify_words holds when its loop ends: the
loaded store extended by every word decided right up to that point, with
its sentence and an empty translation. -/
def classifyFinalUnknown (fs : FileState) (wordlist : List (String × String))
    (keys : List UserKey) : List (String × WordDetails) :=
  (rightDecided
      (newWordlist (load_known_words fs.knownFile)
        (load_unknown_words fs.csvFile)
        (load_otherbook_words fs.otherWordsFiles) wordlist) keys).foldl
    (fun m p => dictInsert m p.1 ⟨"", p.2⟩) (load_unknown_words fs.csvFile)

/-- The review loop's outcome is exactly the two decision folds. -/
theorem classifyLoop_spec (keys : List UserKey) :
    ∀ (nl : List (String × String)) (known : List String)
      (unknown : List (String × WordDetails)),
    classifyLoop nl keys known unknown =
      ((leftDecided nl keys).foldl setAdd known,
       (rightDecided nl keys).foldl (fun m p => dictInsert m p.1 ⟨"", p.2⟩)
         unknown) := by
  induction keys with
  | nil =>
    intro nl known unknown
    cases nl <;> rfl
  | cons k ks ih =>
    intro nl known unknown
    cases nl with
    | nil => rfl
    | cons p ws =>
      obtain ⟨w, s⟩ := p
      cases k with
      | left =>
        show classifyLoop ws ks (setAdd known w) unknown = _
        rw [ih]
        rfl
      | right =>
        show classifyLoop ws ks known (dictInsert unknown w ⟨"", s⟩) = _
        rw [ih]
        rfl
      | other =>
        show classifyLoop ((w, s) :: ws) ks known unknown = _
        rw [ih]
        rfl
      | interrupt => rfl

/-- C1: for every initial file state and every key sequence, when the
classifier ends - the wordlist exhausted, the keys exhausted, or the
session interrupted - the returned file state holds the saved known set
and the saved unknown store (CSV and sidecar), each being the loaded
collection extended by exactly the decisions made up to that point, and
the returned value is that same unknown store. -/
theorem claim_C1_persist_on_exit (fs : FileState)
    (wordlist : List (String × String)) (keys : List UserKey) :
    (classify_words wordlist keys fs).1.knownFile =
      some (save_known_words (classifyFinalKnown fs wordlist keys)) ∧
    (classify_words wordlist keys fs).1.csvFile =
      some (save_unknown_words (classifyFinalUnknown fs wordlist keys)).1 ∧
    (classify_words wordlist keys fs).1.sidecarFile =
      some (save_unknown_words (classifyFinalUnknown fs wordlist keys)).2 ∧
    (classify_words wordlist keys fs).2 = classifyFinalUnknown fs wordlist keys := by
  have h := classifyLoop_spec keys
    (newWordlist (load_known_words fs.knownFile) (load_unknown_words fs.csvFile)
      (load_otherbook_words fs.otherWordsFiles) wordlist)
    (load_known_words fs.knownFile) (load_unknown_words fs.csvFile)
  refine ⟨?_, ?_, ?_, ?_⟩ <;>
    · show _ = _
      simp only [classify_words, h]
      rfl

/-- Membership after a set add. -/
theorem mem_setAdd (s : List String) (x w : String) :
    w ∈ setAdd s x ↔ w ∈ s ∨ w = x := by
  unfold setAdd
  by_cases h : x ∈ s
  · rw [if_pos h]
    constructor
    · exact Or.inl
    · rintro (hw | rfl)
      · exact hw
      · exact h
  · rw [if_neg h]
    simp [List.mem_append]

/-- Membership after folding set adds. -/
theorem mem_foldl_setAdd (l : List String) :
    ∀ (s : List String) (w : String),
    w ∈ l.foldl setAdd s ↔ w ∈ s ∨ w ∈ l := by
  induction l with
  | nil => intro s w; simp
  | cons x l ih =>
    intro s w
    rw [List.foldl_cons, ih, mem_setAdd, List.mem_cons]
    tauto

/-- Keys after a dict assignment. -/
theorem mem_keys_dictInsert {V : Type} (m : List (String × V)) (k : String)
    (v : V) (w : String) :
    w ∈ (dictInsert m k v).map Prod.fst ↔ w ∈ m.map Prod.fst ∨ w = k := by
  unfold dictInsert
  by_cases h : m.any (fun p => p.1 == k) = true
  · rw [if_pos h]
    have hkeys : (m.map (fun p => if p.1 == k then (k, v) else p)).map Prod.fst =
        m.map Prod.fst := by
      rw [List.map_map]
      apply List.map_congr_left
      intro p _
      by_cases hp : p.1 = k
      · simp [Function.comp, hp]
      · simp [Function.comp, hp]
    rw [hkeys]
    obtain ⟨p, hpmem, hpk⟩ := List.any_eq_true.mp h
    rw [beq_iff_eq] at hpk
    constructor
    · exact Or.inl
    · rintro (hw | rfl)
      · exact hw
      · exact hpk ▸ List.mem_map_of_mem Prod.fst hpmem
  · rw [if_neg h]
    simp [List.mem_append]

/-- Keys after folding the unknown-store assignments of the review loop. -/
theorem mem_keys_foldl_dictInsert (l : List (String × String)) :
    ∀ (m : List (String × WordDetails)) (w : String),
    w ∈ (l.foldl (fun m p => dictInsert m p.1 ⟨"", p.2⟩) m).map Prod.fst ↔
      w ∈ m.map Prod.fst ∨ w ∈ l.map Prod.fst := by
  induction l with
  | nil => intro m w; simp
  | cons p l ih =>
    intro m w
    rw [List.foldl_cons, ih, mem_keys_dictInsert, List.map_cons, List.mem_cons]
    tauto

/-- Every word decided left comes from the presented list. -/
theorem leftDecided_subset (keys : List UserKey) :
    ∀ (nl : List (String × String)) (w : String),
    w ∈ leftDecided nl keys → w ∈ nl.map Prod.fst := by
  induction keys with
  | nil =>
    intro nl w h
    cases nl <;> exact absurd h (List.not_mem_nil w)
  | cons k ks ih =>
    intro nl w h
    cases nl with
    | nil => exact absurd h (List.not_mem_nil w)
    | cons p ws =>
      obtain ⟨x, s⟩ := p
      rw [List.map_cons]
      cases k with
      | left =>
        have h2 : w ∈ x :: leftDecided ws ks := h
        rcases List.mem_cons.mp h2 with rfl | hrest
        · exact List.mem_cons_self w (ws.map Prod.fst)
        · exact List.mem_cons_of_mem x (ih ws w hrest)
      | right =>
        have h2 : w ∈ leftDecided ws ks := h
        exact List.mem_cons_of_mem x (ih ws w h2)
      | other =>
        have h2 : w ∈ leftDecided ((x, s) :: ws) ks := h
        have := ih ((x, s) :: ws) w h2
        rw [List.map_cons] at this
        exact this
      | interrupt => exact absurd h (List.not_mem_nil w)

/-- Every pair decided right comes from the presented list. -/
theorem rightDecided_subset (keys : List UserKey) :
    ∀ (nl : List (String × String)) (p : String × String),
    p ∈ rightDecided nl keys → p ∈ nl := by
  induction keys with
  | nil =>
    intro nl p h
    cases nl <;> exact absurd h (List.not_mem_nil p)
  | cons k ks ih =>
    intro nl p h
    cases nl with
    | nil => exact absurd h (List.not_mem_nil p)
    | cons q ws =>
      obtain ⟨x, s⟩ := q
      cases k with
      | left =>
        have h2 : p ∈ rightDecided ws ks := h
        exact List.mem_cons_of_mem (x, s) (ih ws p h2)
      | right =>
        have h2 : p ∈ (x, s) :: rightDecided ws ks := h
        rcases List.mem_cons.mp h2 with rfl | hrest
        · exact List.mem_cons_self (x, s) ws
        · exact List.mem_cons_of_mem (x, s) (ih ws p hrest)
      | other =>
        have h2 : p ∈ rightDecided ((x, s) :: ws) ks := h
        exact ih ((x, s) :: ws) p h2
      | interrupt => exact absurd h (List.not_mem_nil p)

/-- Every word that survives the pre-presentation filter is in none of
the three loaded collections. -/
theorem newWordlist_filters (known : List String)
    (unknown : List (String × WordDetails)) (other : List String)
    (wordlist : List (String × String)) :
    ∀ p ∈ newWordlist known unknown other wordlist,
      p.1 ∉ known ∧ p.1 ∉ unknown.map Prod.fst ∧ p.1 ∉ other := by
  intro p hp
  have hcond := (List.mem_filter.mp hp).2
  rw [Bool.not_eq_eq_eq_not, Bool.not_true, Bool.or_eq_false_iff,
    Bool.or_eq_false_iff] at hcond
  obtain ⟨⟨h1, h2⟩, h3⟩ := hcond
  refine ⟨of_decide_eq_false h1, ?_, of_decide_eq_false h3⟩
  intro hm
  obtain ⟨q, hq, hqe⟩ := List.mem_map.mp hm
  have := List.any_eq_false.mp h2 q hq
  exact this (beq_iff_eq.mpr hqe)

/-- C5: every word the classifier would present is in none of the three
loaded collections, and - provided the loaded known set and unknown keys
are disjoint from the other documents' sidecar words at session start,
as the counterexample claim_C5_cx shows is needed - the union of the
known set and the unknown keys at the end of classification contains no
word of another document's sidecar file. -/
theorem claim_C5_dedup (fs : FileState) (wordlist : List (String × String))
    (keys : List UserKey) :
    (∀ p ∈ newWordlist (load_known_words fs.knownFile)
        (load_unknown_words fs.csvFile)
        (load_otherbook_words fs.otherWordsFiles) wordlist,
      p.1 ∉ load_known_words fs.knownFile ∧
      p.1 ∉ (load_unknown_words fs.csvFile).map Prod.fst ∧
      p.1 ∉ load_otherbook_words fs.otherWordsFiles) ∧
    ((∀ w ∈ load_known_words fs.knownFile,
        w ∉ load_otherbook_words fs.otherWordsFiles) →
     (∀ w ∈ (load_unknown_words fs.csvFile).map Prod.fst,
        w ∉ load_otherbook_words fs.otherWordsFiles) →
     ∀ w, w ∈ classifyFinalKnown fs wordlist keys ∨
          w ∈ (classifyFinalUnknown fs wordlist keys).map Prod.fst →
       w ∉ load_otherbook_words fs.otherWordsFiles) := by
  constructor
  · exact newWordlist_filters _ _ _ _
  · intro hk hu w hw
    rcases hw with hwk | hwu
    · rw [classifyFinalKnown, mem_foldl_setAdd] at hwk
      rcases hwk with hw0 | hwl
      · exact hk w hw0
      · have hmem := leftDecided_subset keys _ w hwl
        obtain ⟨p, hpmem, hpe⟩ := List.mem_map.mp hmem
        have h3 := (newWordlist_filters _ _ _ _ p hpmem).2.2
        rw [hpe] at h3
        exact h3
    · rw [classifyFinalUnknown] at hwu
      rw [mem_keys_foldl_dictInsert] at hwu
      rcases hwu with hw0 | hwl
      · exact hu w hw0
      · obtain ⟨p, hpmem, hpe⟩ := List.mem_map.mp hwl
        have hpnl := rightDecided_subset keys _ p hpmem
        have h3 := (newWordlist_filters _ _ _ _ p hpnl).2.2
        rw [hpe] at h3
        exact h3

/-- C5 counterexample: with the known-words file already holding abcd
and another document's sidecar also holding abcd, the session that
classifies nothing ends with abcd in the known set even though it is a
word of another document's sidecar: the unconditional dedup claim is
false. -/
theorem claim_C5_cx :
    "abcd" ∈ classifyFinalKnown ⟨some "abcd\n", none, none, ["abcd\n"]⟩ [] [] ∧
    "abcd" ∈ load_otherbook_words ["abcd\n"] ∧
    (classify_words [] [] ⟨some "abcd\n", none, none, ["abcd\n"]⟩).1.knownFile =
      some "abcd\n" := by decide

/-- C5 witness: the amended dedup conclusion at a concrete session
starting from empty stores, one other-document sidecar holding a
different word, one presented word and one left press. -/
theorem claim_C5_witness :
    "abcd" ∉ load_otherbook_words ["wxyz\n"] :=
  (claim_C5_dedup ⟨none, none, none, ["wxyz\n"]⟩ [("abcd", "s")] [UserKey.left]).2
    (fun w hw => absurd hw (List.not_mem_nil w))
    (fun w hw => absurd hw (List.not_mem_nil w))
    "abcd" (Or.inl (by decide))

/-! ## The translator: claim C7 -/

/-- An observable event of translate_words: one translation attempt, or
the single save of the store. -/
inductive TransEvent where
  | attempt (w : String)
  | saveStore (u : List (String × WordDetails))
deriving DecidableEq

/-- What one entry becomes: an entry with an empty translation gets the
service's answer, keeps its empty translation when the call fails, and
an already-translated entry is untouched. -/
def transStep (tr : String → Except String String)
    (p : String × WordDetails) : String × WordDetails :=
  if p.2.translation = "" then
    match tr p.1 with
    | .ok t => (p.1, { p.2 with translation := t })
    | .error _ => p
  else p

/-- The loop of translate_words: walk the entries in order, attempting a
translation exactly for those with an empty translation; an error is
logged and the entry left as is. -/
def translateLoop (tr : String → Except String String) :
    List (String × WordDetails) →
    List (String × WordDetails) × List TransEvent
  | [] => ([], [])
  | (w, d) :: rest =>
    if d.translation = "" then
      ((w, match tr w with
           | .ok t => { d with translation := t }
           | .error _ => d) :: (translateLoop tr rest).1,
       TransEvent.attempt w :: (translateLoop tr rest).2)
    else
      ((w, d) :: (translateLoop tr rest).1, (translateLoop tr rest).2)

/-- translate_words from pdf2words.py: process every entry, then save
the store once. -/
def translate_words (tr : String → Except String String)
    (unknown : List (String × WordDetails)) :
    List (String × WordDetails) × List TransEvent :=
  ((translateLoop tr unknown).1,
   (translateLoop tr unknown).2 ++ [TransEvent.saveStore (translateLoop tr unknown).1])

/-- The loop maps each entry through transStep and attempts exactly the
entries lacking a translation, in order. -/
theorem translateLoop_spec (tr : String → Except String String)
    (u : List (String × WordDetails)) :
    translateLoop tr u = (u.map (transStep tr),
      (u.filter (fun p => p.2.translation == "")).map
        (fun p => TransEvent.attempt p.1)) := by
  induction u with
  | nil => rfl
  | cons p rest ih =>
    obtain ⟨w, d⟩ := p
    by_cases h : d.translation = ""
    · simp only [translateLoop, if_pos h, ih, List.map_cons, List.filter_cons]
      have hb : (d.translation == "") = true := beq_iff_eq.mpr h
      rw [hb]
      simp only [if_true, List.map_cons]
      rw [Prod.mk.injEq]
      constructor
      · cases htr : tr w <;> simp [transStep, h, htr]
      · rfl
    · simp only [translateLoop, if_neg h, ih, List.map_cons, List.filter_cons]
      have hb : (d.translation == "") = false := beq_eq_false_iff_ne.mpr h
      rw [hb]
      simp only [Bool.false_eq_true, if_false]
      rw [Prod.mk.injEq]
      constructor
      · simp [transStep, h]
      · rfl

/-- C7: translate_words attempts a translation exactly for the entries
whose translation is empty, in order; entries already translated are
unchanged; a failing entry keeps its empty translation while the rest
are still processed; and the store is persisted exactly once, after all
entries, holding the final mapping. -/
theorem claim_C7_translate (tr : String → Except String String)
    (unknown : List (String × WordDetails)) :
    (translate_words tr unknown).1 = unknown.map (transStep tr) ∧
    (translate_words tr unknown).2 =
      (unknown.filter (fun p => p.2.translation == "")).map
        (fun p => TransEvent.attempt p.1) ++
      [TransEvent.saveStore (unknown.map (transStep tr))] ∧
    (∀ p ∈ unknown, p.2.translation ≠ "" → transStep tr p = p) ∧
    (∀ p ∈ unknown, ∀ e, tr p.1 = Except.error e → transStep tr p = p) := by
  refine ⟨?_, ?_, ?_, ?_⟩
  · show (translateLoop tr unknown).1 = _
    rw [translateLoop_spec]
  · show (translateLoop tr unknown).2 ++ [TransEvent.saveStore (translateLoop tr unknown).1] = _
    rw [translateLoop_spec]
  · intro p _ h
    unfold transStep
    rw [if_neg h]
  · intro p _ e he
    unfold transStep
    by_cases h : p.2.translation = ""
    · rw [if_pos h, he]
    · rw [if_neg h]

/-! ## The flashcard exporter: claims C8 and C9 -/

/-- Value of one hexadecimal digit, none for any other character. -/
def hexVal (c : Char) : Option Nat :=
  if '0' ≤ c ∧ c ≤ '9' then some (c.toNat - 48)
  else if 'a' ≤ c ∧ c ≤ 'f' then some (c.toNat - 87)
  else if 'A' ≤ c ∧ c ≤ 'F' then some (c.toNat - 55)
  else none

/-- Accumulating base-16 parse. -/
def parseHexAux : List Char → Nat → Option Nat
  | [], acc => some acc
  | c :: rest, acc =>
    match hexVal c with
    | some v => parseHexAux rest (acc * 16 + v)
    | none => none

/-- Python int(s, 16): none models the ValueError on an empty or
non-hexadecimal string (sign and whitespace handling left aside, since
md5 hexdigests carry neither). -/
def parseHex16 (cs : List Char) : Option Nat :=
  if cs.isEmpty then none else parseHexAux cs 0

/-- generate_unique_id from create_anki.py: the integer value of the
first eight hex digits of the md5 hexdigest of the name; the digest
function itself (the hashlib call) is the parameter. -/
def generate_unique_id (md5hex : String → String) (name : String) : Option Nat :=
  parseHex16 ((md5hex name).data.take 8)

/-- os.path.basename on a POSIX path: everything after the last slash. -/
def pyBasename (p : String) : String :=
  ⟨(p.data.reverse.takeWhile (fun c => !(c == '/'))).reverse⟩

/-- The stem os.path.splitext keeps: drop the extension at the last dot,
where the leading dots of the name never start an extension. -/
def splitextStem (bn : List Char) : List Char :=
  let lead := bn.takeWhile (fun c => c == '.')
  let rest := bn.drop lead.length
  if rest.any (fun c => c == '.') then
    lead ++ ((rest.reverse.dropWhile (fun c => !(c == '.'))).drop 1).reverse
  else bn

/-- The deck name create_anki_deck_from_csv derives from the CSV path:
the basename without its extension. -/
def stem (p : String) : String := ⟨splitextStem (pyBasename p).data⟩

/-- The produced deck: its two derived identifiers, name and notes. -/
structure AnkiDeck where
  deck_id : Option Nat
  model_id : Option Nat
  name : String
  notes : List (String × String × String)
deriving DecidableEq

/-- The note built from a row: its first three fields as Word,
Translation and Sentence. -/
def rowNote (row : List String) : String × String × String :=
  (row.getD 0 "", row.getD 1 "", row.getD 2 "")

/-- The reader loop of create_anki_deck_from_csv: rows with fewer than
three fields are skipped, each other row adds one note. -/
def deckNotes (rows : List (List String)) : List (String × String × String) :=
  rows.foldl (fun deck row => if row.length < 3 then deck else deck ++ [rowNote row]) []

/-- create_anki_deck_from_csv from create_anki.py, over the CSV file's
path and content. -/
def create_anki_deck_from_csv (md5hex : String → String) (csv_file : String)
    (content : String) : AnkiDeck :=
  let deck_name := stem csv_file
  { deck_id := generate_unique_id md5hex (deck_name ++ "deck")
    model_id := generate_unique_id md5hex (deck_name ++ "model")
    name := deck_name
    notes := deckNotes (csvParse content) }

/-- The note fold appends the notes of the kept rows. -/
theorem deckNotes_foldl (rows : List (List String)) :
    ∀ acc : List (String × String × String),
    rows.foldl (fun deck row => if row.length < 3 then deck else deck ++ [rowNote row]) acc =
      acc ++ (rows.filter (fun r => decide (3 ≤ r.length))).map rowNote := by
  induction rows with
  | nil => intro acc; simp
  | cons r rs ih =>
    intro acc
    rw [List.foldl_cons]
    by_cases h : r.length < 3
    · rw [if_pos h, ih, List.filter_cons, if_neg (by simp; omega)]
    · rw [if_neg h, ih, List.filter_cons, if_pos (by simp; omega)]
      rw [List.map_cons, List.append_assoc, List.singleton_append]

/-- C9: the exporter adds exactly one note per parsed row with at least
three fields - that note holding the row's first three fields as Word,
Translation and Sentence - and silently skips every shorter row. -/
theorem claim_C9_row_notes (md5hex : String → String) (csv_file content : String) :
    (create_anki_deck_from_csv md5hex csv_file content).notes =
      ((csvParse content).filter (fun r => decide (3 ≤ r.length))).map rowNote ∧
    (∀ a b c rest, rowNote (a :: b :: c :: rest) = (a, b, c)) ∧
    (∀ r : List String, r.length < 3 → deckNotes [r] = []) := by
  refine ⟨?_, ?_, ?_⟩
  · show deckNotes (csvParse content) = _
    rw [deckNotes, deckNotes_foldl, List.nil_append]
  · intro a b c rest
    rfl
  · intro r h
    show [r].foldl _ [] = []
    rw [List.foldl_cons, if_pos h, List.foldl_nil]

/-- C8: the deck and model identifiers are functions of the CSV file's
base name alone - two runs on files with the same stem, whatever their
contents, yield the same identifiers - and they hash the name extended
by the two distinct suffixes, which never coincide. -/
theorem claim_C8_stable_ids (md5hex : String → String) (p q c1 c2 : String) :
    (stem p = stem q →
      (create_anki_deck_from_csv md5hex p c1).deck_id =
        (create_anki_deck_from_csv md5hex q c2).deck_id ∧
      (create_anki_deck_from_csv md5hex p c1).model_id =
        (create_anki_deck_from_csv md5hex q c2).model_id) ∧
    (∀ name : String, name ++ "deck" ≠ name ++ "model") ∧
    (create_anki_deck_from_csv md5hex p c1).deck_id =
      generate_unique_id md5hex (stem p ++ "deck") ∧
    (create_anki_deck_from_csv md5hex p c1).model_id =
      generate_unique_id md5hex (stem p ++ "model") := by
  refine ⟨?_, ?_, rfl, rfl⟩
  · intro h
    constructor
    · show generate_unique_id md5hex (stem p ++ "deck") =
        generate_unique_id md5hex (stem q ++ "deck")
      rw [h]
    · show generate_unique_id md5hex (stem p ++ "model") =
        generate_unique_id md5hex (stem q ++ "model")
      rw [h]
  · intro name he
    have hlen := congrArg String.length he
    rw [String.length_append, String.length_append] at hlen
    have h4 : ("deck" : String).length = 4 := rfl
    have h5 : ("model" : String).length = 5 := rfl
    rw [h4, h5] at hlen
    omega

/-- C8 witness: two runs on differently located CSV files with the same
base name, under a concrete digest function, share both identifiers. -/
theorem claim_C8_witness :
    (create_anki_deck_from_csv (fun x => x ++ "00000000") "dir/words.csv" "a").deck_id =
      (create_anki_deck_from_csv (fun x => x ++ "00000000") "words.csv" "b").deck_id ∧
    (create_anki_deck_from_csv (fun x => x ++ "00000000") "dir/words.csv" "a").model_id =
      (create_anki_deck_from_csv (fun x => x ++ "00000000") "words.csv" "b").model_id :=
  (claim_C8_stable_ids (fun x => x ++ "00000000") "dir/words.csv" "words.csv" "a" "b").1
    (by decide)

/-! ## The OCR page filter: claim C2 -/

/-- Membership of a page number in a Python range(a, b). -/
def inRange (r : Nat × Nat) (cnt : Nat) : Bool :=
  decide (r.1 ≤ cnt) && decide (cnt < r.2)

/-- The skip computation of extract_text_with_pytesseract, negated: with
a nonempty ranges list the loop sets skip for a page outside any one of
the ranges, so a page is kept exactly when no range excludes it. -/
def pageIncluded (ranges : List (Nat × Nat)) (cnt : Nat) : Bool :=
  !(!ranges.isEmpty && ranges.any (fun r => !inRange r cnt))

/-- The page loop of extract_text_with_pytesseract: pages are counted
from 1, a skipped page contributes nothing, a kept page appends its OCR
text. -/
def extractPagesAux (ranges : List (Nat × Nat)) : Nat → List String → String
  | _, [] => ""
  | cnt, t :: ts =>
    (if pageIncluded ranges cnt then t else "") ++ extractPagesAux ranges (cnt + 1) ts

/-- extract_text_with_pytesseract from pdf2words.py over the per-page
OCR texts (the conversion and OCR engine are the parameter pages). -/
def extract_text_with_pytesseract (ranges : List (Nat × Nat))
    (pages : List String) : String :=
  extractPagesAux ranges 1 pages

/-- Concatenation of a list of strings. -/
def concatAll (l : List String) : String := l.foldr (fun a b => a ++ b) ""

/-- The page loop concatenates exactly the kept pages, counting from any
start. -/
theorem extractPagesAux_spec (ranges : List (Nat × Nat)) (pages : List String) :
    ∀ k : Nat, extractPagesAux ranges k pages =
      concatAll (((List.enumFrom k pages).filter
        (fun p => pageIncluded ranges p.1)).map Prod.snd) := by
  induction pages with
  | nil => intro k; rfl
  | cons t ts ih =>
    intro k
    show (if pageIncluded ranges k then t else "") ++ extractPagesAux ranges (k + 1) ts = _
    rw [ih (k + 1)]
    show _ = concatAll ((((k, t) :: List.enumFrom (k + 1) ts).filter
      (fun p => pageIncluded ranges p.1)).map Prod.snd)
    rw [List.filter_cons]
    by_cases h : pageIncluded ranges k = true
    · rw [if_pos h, if_pos h, List.map_cons]
      rfl
    · rw [if_neg h, if_neg h]
      show "" ++ _ = _
      have : ∀ s : String, "" ++ s = s := fun s => by
        have hd : ("" ++ s).data = s.data := by
          show [] ++ s.data = s.data
          rw [List.nil_append]
        cases s
        cases hd
        rfl
      rw [this]

/-- C2 (amended): a page is processed exactly when its 1-based number
lies inside every range of the list (for the empty list every page is
processed), and the extracted text is the concatenation of exactly the
processed pages' texts in page order. -/
theorem claim_C2_page_filter (ranges : List (Nat × Nat)) (cnt : Nat)
    (pages : List String) :
    (pageIncluded ranges cnt = true ↔ ∀ r ∈ ranges, inRange r cnt = true) ∧
    extract_text_with_pytesseract ranges pages =
      concatAll (((List.enumFrom 1 pages).filter
        (fun p => pageIncluded ranges p.1)).map Prod.snd) := by
  constructor
  · cases ranges with
    | nil => simp [pageIncluded]
    | cons r rs =>
      rw [pageIncluded]
      simp [List.any_eq_false]
  · exact extractPagesAux_spec ranges pages 1

/-- C2 counterexample: with the two ranges range(1, 4) and range(5, 8),
page 2 lies inside the first range yet the extractor skips it - indeed
every page is skipped, the extracted text is empty - refuting the
claimed inside-at-least-one-range behaviour: the loop skips any page
outside even one of the ranges. -/
theorem claim_C2_cx :
    inRange (1, 4) 2 = true ∧
    pageIncluded [(1, 4), (5, 8)] 2 = false ∧
    extract_text_with_pytesseract [(1, 4), (5, 8)] ["pageone ", "pagetwo ", "pagethree"] = "" := by
  decide
